import Mathlib

set_option maxHeartbeats 1000000

/-!
Shallow embedding of the Glow AI Agent orchestration subsystem.

The definitions below translate, clause by clause, the control flow of
`src/brain/robust_orchestrator.py` (class `RobustOrchestrator`),
`src/brain/vision_first_orchestrator.py` (class `VisionFirstOrchestrator`),
`src/brain/multi_agent_system.py` (classes `OrchestratorAgent`, `ExecutionAgent`,
`VerificationAgent`) and `src/brain/gemini_planner.py` (`GeminiPlanner._parse_plan`).

External collaborators (the remote LLM, the screen observer, the OS tools, the
context handlers) are modelled as oracle inputs: per-iteration environment
records supply exactly the data the Python code reads back from them.  Calls
made to those collaborators are recorded in an explicit event trace so that
"no tool is invoked" style properties can be stated.  Timing-only code
(`time.sleep`, `_wait_for_screen_change`) and print statements have no
semantic effect on the returned response and are not modelled; the ESC abort
flag is only ever set by a concurrent key listener and is modelled as `false`
for the duration of a run.
-/

/-- Contiguous-sublist test on character lists, by scanning positions. -/
def listInfix (pat : List Char) : List Char → Bool
  | [] => pat.isEmpty
  | c :: rest => pat.isPrefixOf (c :: rest) || listInfix pat rest

/-- Python-style substring test: `containsSub hay pat` models `pat in hay` on strings. -/
def containsSub (hay pat : String) : Bool :=
  listInfix pat.data hay.data

/-- ASCII lowering of one character, as `str.lower()` acts on the ASCII range
(every string the orchestrator compares case-insensitively is ASCII). -/
def charLower (c : Char) : Char :=
  if 'A' ≤ c ∧ c ≤ 'Z' then Char.ofNat (c.toNat + 32) else c

/-- Python `str.lower()` on ASCII strings. -/
def pyLower (s : String) : String :=
  String.mk (s.data.map charLower)

/-- Modelled from the spec: the `context_router` module is imported by
`robust_orchestrator.py` but absent from the sources; per spec §3 the
`Observation` context is "enumerated: desktop, browser, application, website,
unknown", and the orchestrator source references the members `APP` and
`WEBSITE`. -/
inductive ScreenContext
  | desktop
  | browser
  | app
  | website
  | unknown
deriving DecidableEq, Repr

/-- String tag of a context (`context.value` in the source). -/
def ScreenContext.value : ScreenContext → String
  | .desktop => "desktop"
  | .browser => "browser"
  | .app => "application"
  | .website => "website"
  | .unknown => "unknown"

/-- Fields of the `_get_intent` JSON reply that `process_request` reads:
`goal_achieved`, `message`, `intent`, `target` (the latter two with default
`""` as in `intent_result.get("intent", "")`). -/
structure IntentResult where
  goalAchieved : Bool
  message : Option String
  intent : String
  target : String
deriving DecidableEq, Repr

/-- Modelled from the spec: a context handler (module `hands.context_handlers`,
imported but absent from the sources) returns a result dict with `success` and
`needs_vision` flags.  `none` stands for "no handler for this context, or
`can_handle` returned false".  The two failure branches of `process_request`
(`needs_vision` set or not) both call `_run_vision_step` and then continue, so
`needsVision` does not influence the modelled behaviour. -/
structure HandlerBehavior where
  success : Bool
  needsVision : Bool
deriving DecidableEq, Repr

/-- Element returned by the vision planner's `find_best_element_for_intent`. -/
structure VisionElement where
  label : String
deriving DecidableEq, Repr

/-- Coordinates returned by the legacy `find_element_on_screen`. -/
structure ScreenPoint where
  x : Nat
  y : Nat
deriving DecidableEq, Repr

/-- External behaviour available to `_run_vision_step` at one iteration:
`findBest = none` models a planner without the `find_best_element_for_intent`
attribute, `some none` a call that returned `None`; likewise `findOnScreen`
for `find_element_on_screen`. -/
structure VisionEnv where
  findBest : Option (Option VisionElement)
  interactSuccess : Bool
  findOnScreen : Option (Option ScreenPoint)
deriving DecidableEq, Repr

/-- Environment data one loop iteration of `process_request` reads from the
outside world: observed context and window title, the planner's intent reply,
the context handler's behaviour, and the vision/tool environment. -/
structure IterEnv where
  context : ScreenContext
  windowTitle : String
  intentRes : IntentResult
  handler : Option HandlerBehavior
  vision : VisionEnv
deriving DecidableEq, Repr

/-- Trace of invocations of outside collaborators made during a run. -/
inductive Event
  | handlerExec (intent target : String)
  | visionFindBest (intent target : String)
  | visionInteract (label action : String)
  | visionFindScreen (target : String)
  | screenClick (x y : Nat)
  | toolCall (name arg : String)
deriving DecidableEq, Repr

/-- Mutable orchestrator state threaded through the loop: `action_history`
and `last_action_succeeded`. -/
structure OrchState where
  history : List String
  lastActionSucceeded : Bool
deriving DecidableEq, Repr

/-- The deny list `RobustOrchestrator.BLOCKED_INTENTS`. -/
def blockedIntents : List String :=
  ["banking", "password", "captcha", "admin", "sudo", "registry"]

/-- Translation of `RobustOrchestrator._is_blocked_intent`. -/
def isBlockedIntent (intent target : String) : Bool :=
  let checkText := pyLower (intent ++ " " ++ target)
  blockedIntents.any (fun blocked => containsSub checkText blocked)

/-- Translation of `RobustOrchestrator._is_goal_already_achieved`. -/
def isGoalAlreadyAchieved (context : ScreenContext) (intent target windowTitle : String) : Bool :=
  let intentLower := pyLower intent
  let targetLower := pyLower target
  let windowLower := pyLower windowTitle
  ((containsSub intentLower "open" || containsSub intentLower "launch"
      || containsSub intentLower "start")
    && context == ScreenContext.app && containsSub windowLower targetLower)
  || ((containsSub intentLower "navigate" || containsSub intentLower "go")
      && containsSub windowLower targetLower)
  || (context == ScreenContext.website && containsSub windowLower targetLower)

/-- Outcome of `_run_vision_step`: the `success` flag of the returned dict,
the trace of collaborator invocations, and the value left in
`self.last_action_succeeded` (every return of the Python function assigns it
first). -/
structure VisionOut where
  success : Bool
  events : List Event
  las : Bool
deriving DecidableEq, Repr

/-- Method 3 of `_run_vision_step`: direct tool mapping fallback.  Each keyword
check falls through to the next one when the corresponding tool name is not a
key of the registry, exactly as the nested `if` statements do. -/
def visionMap (reg : List String) (target intentLower : String) (evs : List Event) : VisionOut :=
  if (containsSub intentLower "open" || containsSub intentLower "launch"
      || containsSub intentLower "start") && reg.contains "launch_application" then
    ⟨true, evs ++ [Event.toolCall "launch_application" target], true⟩
  else if containsSub intentLower "search" && reg.contains "search_google" then
    ⟨true, evs ++ [Event.toolCall "search_google" target], true⟩
  else if (containsSub intentLower "navigate" || containsSub intentLower "go")
      && reg.contains "open_website" then
    ⟨true, evs ++ [Event.toolCall "open_website" target], true⟩
  else if containsSub intentLower "type" && reg.contains "type_text" then
    ⟨true, evs ++ [Event.toolCall "type_text" target], true⟩
  else
    ⟨false, evs, false⟩

/-- Method 2 of `_run_vision_step`: legacy `find_element_on_screen` followed by
a direct coordinate click when the element and both coordinates are truthy. -/
def visionLegacy (v : VisionEnv) (reg : List String) (target intentLower : String)
    (evs : List Event) : VisionOut :=
  match v.findOnScreen with
  | some (some pt) =>
    if pt.x ≠ 0 && pt.y ≠ 0 then
      ⟨true, evs ++ [Event.visionFindScreen target, Event.screenClick pt.x pt.y], true⟩
    else
      visionMap reg target intentLower (evs ++ [Event.visionFindScreen target])
  | some none =>
    visionMap reg target intentLower (evs ++ [Event.visionFindScreen target])
  | none =>
    visionMap reg target intentLower evs

/-- Translation of `RobustOrchestrator._run_vision_step`: universal element
detection first (when the planner has `find_best_element_for_intent`), then the
legacy screen search, then the direct tool mapping. -/
def runVisionStep (v : VisionEnv) (reg : List String) (intent target : String) : VisionOut :=
  let intentLower := pyLower intent
  match v.findBest with
  | some (some el) =>
    let action :=
      if containsSub intentLower "search" then "click_and_type"
      else if containsSub intentLower "type" then "type"
      else "click"
    ⟨v.interactSuccess,
      [Event.visionFindBest intent target, Event.visionInteract el.label action],
      v.interactSuccess⟩
  | some none =>
    visionLegacy v reg target intentLower [Event.visionFindBest intent target]
  | none =>
    visionLegacy v reg target intentLower []

/-- Outcome of one loop iteration of `process_request`: either a final
response (a `return` statement was reached) or the updated state for the next
iteration, in both cases with the invocations made during the iteration. -/
inductive StepOut
  | done (resp : String) (evs : List Event)
  | next (st : OrchState) (evs : List Event)
deriving DecidableEq, Repr

/-- One iteration of the `for iteration in range(1, MAX_ITERATIONS + 1)` body
of `RobustOrchestrator.process_request`, in source order: goal-achieved check,
already-achieved check, safety check, duplicate-action guard, then handler
dispatch with the vision/tool fallback. -/
def robustStep (e : IterEnv) (reg : List String) (st : OrchState) : StepOut :=
  let ir := e.intentRes
  if ir.goalAchieved then
    .done (ir.message.getD "Task completed successfully.") []
  else
    let intent := ir.intent
    let target := ir.target
    if isGoalAlreadyAchieved e.context intent target e.windowTitle then
      .done ("Done! " ++ target ++ " is already open.") []
    else if isBlockedIntent intent target then
      .done ("I can't safely do that ('" ++ intent ++ "'). Let me help in another way.") []
    else
      let actionKey := e.context.value ++ ":" ++ intent ++ ":" ++ target
      let lastThree := st.history.drop (st.history.length - 3)
      if lastThree.contains actionKey && st.lastActionSucceeded then
        .done ("Done! I already completed '" ++ intent ++ "' on '" ++ target ++ "'.") []
      else
        let st1 : OrchState := ⟨st.history ++ [actionKey], st.lastActionSucceeded⟩
        match e.handler with
        | some hb =>
          if hb.success then
            .next st1 [Event.handlerExec intent target]
          else
            let v := runVisionStep e.vision reg intent target
            .next ⟨st1.history, v.las⟩ (Event.handlerExec intent target :: v.events)
        | none =>
          let v := runVisionStep e.vision reg intent target
          .next ⟨st1.history, v.las⟩ v.events

/-- The iteration loop of `process_request`.  `idx` is the 1-based iteration
counter, `remaining` the iterations left out of `MAX_ITERATIONS = 10`; the
result is the response string, the accumulated event trace and the number of
iterations (planner intent queries) that were entered. -/
def runRobustLoop (env : Nat → IterEnv) (reg : List String) :
    Nat → Nat → OrchState → List Event → String × List Event × Nat
  | idx, 0, _, acc =>
    ("Reached maximum iterations (10). Task may be partially complete.", acc, idx - 1)
  | idx, remaining + 1, st, acc =>
    match robustStep (env idx) reg st with
    | .done resp evs => (resp, acc ++ evs, idx)
    | .next st' evs => runRobustLoop env reg (idx + 1) remaining st' (acc ++ evs)

/-- Translation of `RobustOrchestrator.process_request`: fresh action history,
`MAX_ITERATIONS = 10`; `last_action_succeeded` is not reset by the method, so
its entry value is a parameter. -/
def runRobust (env : Nat → IterEnv) (reg : List String) (las : Bool) :
    String × List Event × Nat :=
  runRobustLoop env reg 1 10 ⟨[], las⟩ []

/-- Fields of the vision decision JSON that
`VisionFirstOrchestrator.process_request_vision_first` reads: `goal_achieved`,
`progress`, and the presence of a `next_action`. -/
structure VFDecision where
  goalAchieved : Bool
  progress : Option String
  nextAction : Option String
deriving DecidableEq, Repr

/-- The iteration loop of `process_request_vision_first`.  Per iteration the
environment supplies either the parsed decision of
`analyze_screen_and_decide` or, as `Except.error`, an exception caught by the
`except Exception` block (which records the error in the conversation history
and continues).  On `goal_achieved` the loop returns the `progress` message;
the execution of `next_action` (whose result is only logged) never ends the
loop.  The result pairs the response with the final value of
`self.iteration`. -/
def runVFLoop (env : Nat → Except String VFDecision) : Nat → Nat → String × Nat
  | iter, 0 =>
    ("Partially completed task. Performed " ++ toString iter
      ++ " actions but did not fully achieve goal.", iter)
  | iter, remaining + 1 =>
    let i := iter + 1
    match env i with
    | .error _ => runVFLoop env i remaining
    | .ok d =>
      if d.goalAchieved then
        (d.progress.getD "Task completed successfully.", i)
      else
        match d.nextAction with
        | none => runVFLoop env i remaining
        | some _ => runVFLoop env i remaining

/-- Translation of `VisionFirstOrchestrator.process_request_vision_first` with
`max_iterations = 15` and `self.iteration` starting at 0. -/
def runVisionFirst (env : Nat → Except String VFDecision) : String × Nat :=
  runVFLoop env 0 15

/-- Parameter values of a plan step: JSON strings, numbers and booleans
(`_substitute_variables` only rewrites the string-valued ones). -/
inductive PyVal
  | str (s : String)
  | num (n : Int)
  | bool (b : Bool)
deriving DecidableEq, Repr

/-- Characters matched by the `[a-zA-Z0-9_]` class of the `$var` pattern. -/
def wordChar (c : Char) : Bool :=
  c.isAlphanum || c = '_'

/-- Scan for the first regex of `_substitute_variables`,
`re.sub(r'\$([a-zA-Z0-9_]+)', replace_dollar_var, value)`: at each `$` the
maximal nonempty run of word characters is the variable name, replaced by
`step_outputs.get(var_name, match.group(0))`; replacement text is emitted, not
rescanned.  The fuel argument (instantiated with the input length, an upper
bound on the number of scan steps) only establishes termination. -/
def passDollar (outs : List (String × String)) : Nat → List Char → List Char
  | 0, s => s
  | _ + 1, [] => []
  | fuel + 1, c :: rest =>
    if c = '$' then
      let run := rest.takeWhile wordChar
      if run.isEmpty then
        c :: passDollar outs fuel rest
      else
        (match outs.lookup (String.mk run) with
          | some v => v.data
          | none => c :: run) ++ passDollar outs fuel (rest.drop run.length)
    else
      c :: passDollar outs fuel rest

/-- Attempted match of `(?:result from step |step )?(\d+)(?: result)?` followed
by the closing bracket, at the position just after an opening bracket.  The
alternatives of the optional leading group are mutually exclusive on their
first character, and after the maximal digit run only the two continuations
`" result" ++ close` and `close` can complete a match, so this deterministic
parse coincides with the regex engine's backtracking search.  Returns the
digit group and the number of characters consumed after the opening
bracket. -/
def bracketMatch (closeC : Char) (rest : List Char) : Option (String × Nat) :=
  let (prefLen, t1) :=
    if "result from step ".data.isPrefixOf rest then (17, rest.drop 17)
    else if "step ".data.isPrefixOf rest then (5, rest.drop 5)
    else (0, rest)
  let digits := t1.takeWhile Char.isDigit
  if digits.isEmpty then none
  else
    let t2 := t1.drop digits.length
    if (" result".data ++ [closeC]).isPrefixOf t2 then
      some (String.mk digits, prefLen + digits.length + 8)
    else
      match t2 with
      | c :: _ => if c = closeC then some (String.mk digits, prefLen + digits.length + 1) else none
      | [] => none

/-- Scan for the second and third regexes of `_substitute_variables`,
`\{(?:result from step |step )?(\d+)(?: result)?\}` (and the `<`/`>` variant):
a match is replaced by `step_outputs.get(f"step{N}_result", match.group(0))`;
on a failed match at an opening bracket the scan resumes one character
later. -/
def passBracket (outs : List (String × String)) (openC closeC : Char) :
    Nat → List Char → List Char
  | 0, s => s
  | _ + 1, [] => []
  | fuel + 1, c :: rest =>
    if c = openC then
      match bracketMatch closeC rest with
      | some (digits, matchLen) =>
        (match outs.lookup ("step" ++ digits ++ "_result") with
          | some v => v.data
          | none => c :: rest.take matchLen) ++ passBracket outs openC closeC fuel (rest.drop matchLen)
      | none => c :: passBracket outs openC closeC fuel rest
    else
      c :: passBracket outs openC closeC fuel rest

/-- Search of `replace_desktop_path`: `for step_num in range(len(step_outputs), 0, -1)`,
returning the first (largest) `n` with `step_outputs.get(f"step{n}_tool") ==
"get_desktop_path"`. -/
def deskFind (outs : List (String × String)) : Nat → Option Nat
  | 0 => none
  | n + 1 =>
    if outs.lookup ("step" ++ toString (n + 1) ++ "_tool") == some "get_desktop_path" then
      some (n + 1)
    else
      deskFind outs n

/-- Replacement text of `replace_desktop_path` for a match `g0`: the matching
step's result if a `get_desktop_path` step is found (falling back to `g0` when
its result key is absent), otherwise `g0` itself. -/
def deskLookup (outs : List (String × String)) (g0 : List Char) : List Char :=
  match deskFind outs outs.length with
  | some n => ((outs.lookup ("step" ++ toString n ++ "_result")).map String.data).getD g0
  | none => g0

/-- Scan for the fourth regex of `_substitute_variables`,
`[<{\$]desktop_path[>}]?`, replaced via `replace_desktop_path`. -/
def passDesktop (outs : List (String × String)) : Nat → List Char → List Char
  | 0, s => s
  | _ + 1, [] => []
  | fuel + 1, c :: rest =>
    if c = '<' || c = '{' || c = '$' then
      if "desktop_path".data.isPrefixOf rest then
        let closeLen : Nat :=
          match rest.drop 12 with
          | d :: _ => if d = '>' || d = '}' then 1 else 0
          | [] => 0
        let matchLen := 12 + closeLen
        deskLookup outs (c :: rest.take matchLen) ++ passDesktop outs fuel (rest.drop matchLen)
      else
        c :: passDesktop outs fuel rest
    else
      c :: passDesktop outs fuel rest

/-- String-level effect of `OrchestratorAgent._substitute_variables` on one
string value: the four `re.sub` passes applied in source order. -/
def substStr (outs : List (String × String)) (s : String) : String :=
  let l1 := passDollar outs s.data.length s.data
  let l2 := passBracket outs '{' '}' l1.length l1
  let l3 := passBracket outs '<' '>' l2.length l2
  String.mk (passDesktop outs l3.length l3)

/-- Per-value effect of `_substitute_variables`: only `isinstance(value, str)`
values are rewritten. -/
def substVal (outs : List (String × String)) : PyVal → PyVal
  | .str s => .str (substStr outs s)
  | v => v

/-- Translation of `OrchestratorAgent._substitute_variables` over a parameter
map, represented as an association list with the dict's distinct keys. -/
def substituteVariables (params : List (String × PyVal)) (outs : List (String × String)) :
    List (String × PyVal) :=
  params.map (fun kv => (kv.1, substVal outs kv.2))

/-- Python `str.find` for a single character: index of the first occurrence or
`-1`. -/
def pyFind (s : List Char) (c : Char) : Int :=
  match s with
  | [] => -1
  | a :: rest =>
    if a = c then 0
    else
      let r := pyFind rest c
      if r = -1 then -1 else r + 1

/-- Python `str.rfind` for a single character: index of the last occurrence or
`-1`. -/
def pyRfind (s : List Char) (c : Char) : Int :=
  match s with
  | [] => -1
  | a :: rest =>
    let r := pyRfind rest c
    if r = -1 then (if a = c then 0 else -1) else r + 1

/-- Python slice `s[a:b]` for `0 ≤ a` and `0 ≤ b`. -/
def pySlice (s : List Char) (a b : Nat) : List Char :=
  (s.take b).drop a

/-- One step of an execution plan: the fields `OrchestratorAgent.run` reads
(`tool`, `parameters`; the `description` is only printed). -/
structure PlanStep where
  tool : Option String
  parameters : List (String × PyVal)
  description : String
deriving DecidableEq, Repr

/-- Parsed plan fields read by `OrchestratorAgent.run` and `_parse_plan`:
`analysis`, `steps` (default `[]`) and `final_response`. -/
structure ParsedPlan where
  analysis : Option String
  steps : List PlanStep
  finalResponse : Option String
deriving DecidableEq, Repr

/-- Fallback plan built by `_parse_plan` when no JSON object is found or
`json.loads` fails: raw text as analysis and final response, no steps. -/
def fallbackPlan (planText : String) : ParsedPlan :=
  ⟨some planText, [], some planText⟩

/-- The substring `plan_text[start:end]` that `_parse_plan` hands to
`json.loads`, from the first `'\x7b'` to the last `'\x7d'`. -/
def pyExtract (planText : String) : String :=
  String.mk (pySlice planText.data (pyFind planText.data '{').toNat
    ((pyRfind planText.data '}' + 1).toNat))

/-- Translation of `GeminiPlanner._parse_plan`; `jparse` models `json.loads`
on the extracted substring, `none` standing for a `JSONDecodeError`. -/
def parsePlan (jparse : String → Option ParsedPlan) (planText : String) : ParsedPlan :=
  let s := planText.data
  let start := pyFind s '{'
  let stop := pyRfind s '}' + 1
  if start = -1 ∨ stop = 0 then fallbackPlan planText
  else
    match jparse (String.mk (pySlice s start.toNat stop.toNat)) with
    | some plan => plan
    | none => fallbackPlan planText

/-- Execution-result dict recorded by `ExecutionAgent.process` and by the
`CREATE_NEW_TOOL` branch of `OrchestratorAgent.run`: the keys `tool`,
`result`, `error`, `success`. -/
structure ExecResult where
  tool : Option String
  res : Option String
  err : Option String
  success : Bool
deriving DecidableEq, Repr

/-- An `AgentMessage` from the executor, distinguished by its
`message_type`. -/
inductive AgentResult
  | response (content : ExecResult)
  | errorMsg (content : ExecResult)
deriving DecidableEq, Repr

/-- Tool registry of the multi-agent system: a tool either returns a result
string or raises (`Except.error` carries `str(e)`). -/
def ToolReg : Type :=
  String → Option (List (String × PyVal) → Except String String)

/-- Translation of `ExecutionAgent.process` on a `"request"` message: a tool
found in the registry is invoked inside `try`, an exception becomes an error
message with `success: False` and the exception text; an unknown tool (or a
plan step with no `tool` key, whose name prints as `None`) becomes a
"not found" error message. -/
def executionAgentProcess (reg : ToolReg) (toolName : Option String)
    (params : List (String × PyVal)) : AgentResult :=
  match toolName with
  | some t =>
    match reg t with
    | some f =>
      match f params with
      | .ok r => .response ⟨some t, some r, none, true⟩
      | .error e => .errorMsg ⟨some t, none, some e, false⟩
    | none => .errorMsg ⟨some t, none, some ("Tool '" ++ t ++ "' not found"), false⟩
  | none => .errorMsg ⟨none, none, some "Tool 'None' not found", false⟩

/-- Outcome of the `CREATE_NEW_TOOL` branch for one step, supplied by the
environment: `Except.ok name` for a generated and `exec`-registered tool,
`Except.error msg` for either a creator error or an `exec` failure (the two
Python branches differ only in the recorded message).  The `exec` of
generated source and the registry mutation are outside the modelled fragment;
no claim depends on a created tool being invoked later. -/
def CreateOracle : Type :=
  Nat → Except String String

/-- One plan step of the `for i, step in enumerate(steps, 1)` loop of
`OrchestratorAgent.run`: variable substitution, then either the
`CREATE_NEW_TOOL` branch (which stores no `step{i}_result`) or dispatch to the
executor, recording `step{i}_result`/`step{i}_tool` on success and
`step{i}_result = ""`/`step{i}_error` on failure. -/
def execStep (reg : ToolReg) (create : CreateOracle) (i : Nat) (step : PlanStep)
    (outs : List (String × String)) : ExecResult × List (String × String) :=
  let params := substituteVariables step.parameters outs
  if step.tool == some "CREATE_NEW_TOOL" then
    match create i with
    | .ok name => (⟨some "CREATE_NEW_TOOL", some ("Created tool: " ++ name), none, true⟩, outs)
    | .error e => (⟨some "CREATE_NEW_TOOL", some e, none, false⟩, outs)
  else
    match executionAgentProcess reg step.tool params with
    | .response c =>
      (c, outs ++ [("step" ++ toString i ++ "_result", c.res.getD ""),
                   ("step" ++ toString i ++ "_tool", step.tool.getD "")])
    | .errorMsg c =>
      (c, outs ++ [("step" ++ toString i ++ "_result", ""),
                   ("step" ++ toString i ++ "_error", c.err.getD "")])

/-- The plan-execution loop of `OrchestratorAgent.run`, accumulating
`execution_results` and `step_outputs`. -/
def execSteps (reg : ToolReg) (create : CreateOracle) :
    Nat → List PlanStep → List (String × String) → List ExecResult × List (String × String)
  | _, [], outs => ([], outs)
  | i, step :: rest, outs =>
    let res := execStep reg create i step outs
    let tail := execSteps reg create (i + 1) rest res.2
    (res.1 :: tail.1, tail.2)

/-- Verifier reply fields read by `OrchestratorAgent.run`:
`verification_status`, `user_response` (both may be absent from a parsed JSON
object) and `issues` (read with default `[]`). -/
structure VerifierContent where
  verificationStatus : Option String
  userResponse : Option String
  issues : List String
deriving DecidableEq, Repr

/-- Parsing stage of `VerificationAgent.process`: brace extraction as in
`_parse_plan`; a reply without braces falls back to a synthesized dict with
`verification_status: "success"` and the raw text as `user_response`, while a
`json.loads` failure (`jparse` returning `none`) escapes to the agent's
`except` block, i.e. an error message. -/
def verParse (jparse : String → Option VerifierContent) (resultText : String) :
    Option VerifierContent :=
  let s := resultText.data
  let start := pyFind s '{'
  let stop := pyRfind s '}' + 1
  if start = -1 ∨ stop = 0 then some ⟨some "success", some resultText, []⟩
  else jparse (String.mk (pySlice s start.toNat stop.toNat))

/-- External behaviour consumed by one `OrchestratorAgent.run` call:
the truthiness of `analyze_intent(...)["needs_tools"]`, the conversational
reply, the planner's `generate_content` outcome, `json.loads` for the plan and
the verifier, the verifier's `generate_content` outcome (a function of the
execution results, which are embedded in its prompt), and the
`CREATE_NEW_TOOL` oracle.  Each `Except.error` models an exception caught by
the corresponding `try` block in the source. -/
structure MASEnv where
  needsTools : Bool
  convReply : String
  planGen : Except String String
  jparsePlan : String → Option ParsedPlan
  verGen : List ExecResult → Except String String
  jparseVer : String → Option VerifierContent
  create : CreateOracle

/-- Result of `OrchestratorAgent.run` as seen by the caller: `ok` with the
returned value (`none` models Python's `None`), or `crash` for an exception
that propagates out of `run` (the source applies `.upper()` to
`content.get("verification_status")`, which raises `AttributeError` when that
key is absent from a parsed verifier reply). -/
inductive RunOutcome
  | ok (resp : Option String)
  | crash (msg : String)
deriving DecidableEq, Repr

/-- Translation of `OrchestratorAgent.run` (with `PlanningAgent.process` and
`VerificationAgent.process` inlined): conversational short-circuit, planning
with `_parse_plan`, sequential step execution, then verification with its
fallbacks. -/
def masRun (env : MASEnv) (reg : ToolReg) : RunOutcome :=
  if env.needsTools = false then
    .ok (some env.convReply)
  else
    match env.planGen with
    | .error e => .ok (some ("Error: " ++ e))
    | .ok planText =>
      let plan := parsePlan env.jparsePlan planText
      let (results, _) := execSteps reg env.create 1 plan.steps []
      match env.verGen results with
      | .error _ => .ok (some (plan.finalResponse.getD "Task completed."))
      | .ok reply =>
        match verParse env.jparseVer reply with
        | some content =>
          match content.verificationStatus with
          | none => .crash "AttributeError"
          | some _ => .ok content.userResponse
        | none => .ok (some (plan.finalResponse.getD "Task completed."))

/-- Stub behaviour of one iteration environment, as in the spec's iteration
test: the planner never reports the goal achieved, its proposal triggers
neither the already-achieved heuristic nor the safety block, a present handler
reports failure, and the vision/tool fallback fails. -/
def RStub (reg : List String) (e : IterEnv) : Prop :=
  e.intentRes.goalAchieved = false ∧
  isGoalAlreadyAchieved e.context e.intentRes.intent e.intentRes.target e.windowTitle = false ∧
  isBlockedIntent e.intentRes.intent e.intentRes.target = false ∧
  (∀ hb, e.handler = some hb → hb.success = false) ∧
  (runVisionStep e.vision reg e.intentRes.intent e.intentRes.target).success = false

/-- Characters that never begin a substitution pattern: text free of `'$'`,
`'\x7b'` and `'<'` is copied verbatim by all four passes of
`_substitute_variables`. -/
def cleanChars (l : List Char) : Prop :=
  ∀ c ∈ l, c ≠ '$' ∧ c ≠ '{' ∧ c ≠ '<'

/-- Shape of a suffix at which the maximal word-character run of the `$var`
pattern stops: empty, or starting with a non-word character. -/
def nonWordHead (l : List Char) : Prop :=
  l = [] ∨ ∃ c t, l = c :: t ∧ wordChar c = false

theorem runVisionStep_las_eq (v : VisionEnv) (reg : List String) (intent target : String) :
    (runVisionStep v reg intent target).las = (runVisionStep v reg intent target).success := by
  unfold runVisionStep visionLegacy visionMap
  rcases v.findBest with _ | (_ | el) <;>
    rcases v.findOnScreen with _ | (_ | pt) <;>
    simp only [] <;>
    (repeat' split) <;> rfl


theorem robustStep_next_of_stub (e : IterEnv) (reg : List String) (st : OrchState)
    (hstub : RStub reg e) (hinv : st.lastActionSucceeded = true → st.history = []) :
    ∃ evs, robustStep e reg st =
      StepOut.next
        ⟨st.history ++ [e.context.value ++ ":" ++ e.intentRes.intent ++ ":" ++ e.intentRes.target],
          false⟩ evs := by
  obtain ⟨hga, hach, hblk, hhandler, hvs⟩ := hstub
  have hlas' : (runVisionStep e.vision reg e.intentRes.intent e.intentRes.target).las = false := by
    rw [runVisionStep_las_eq, hvs]
  have hmem : (e.context.value ++ ":" ++ e.intentRes.intent ++ ":" ++ e.intentRes.target) ∈
      List.drop (st.history.length - 3) st.history → st.lastActionSucceeded = false := by
    intro hm
    cases hlas : st.lastActionSucceeded with
    | false => rfl
    | true => rw [hinv hlas] at hm; simp at hm
  cases hh : e.handler with
  | none =>
    refine ⟨(runVisionStep e.vision reg e.intentRes.intent e.intentRes.target).events, ?_⟩
    simp [robustStep, hga, hach, hblk, hh, hlas', hmem]
    exact hmem
  | some hb =>
    have hbs : hb.success = false := hhandler hb hh
    refine ⟨Event.handlerExec e.intentRes.intent e.intentRes.target ::
      (runVisionStep e.vision reg e.intentRes.intent e.intentRes.target).events, ?_⟩
    simp [robustStep, hga, hach, hblk, hh, hbs, hlas', hmem]
    exact hmem

theorem runRobustLoop_first_done (env : Nat → IterEnv) (reg : List String) (idx r : Nat)
    (st : OrchState) (acc : List Event) (resp : String) (evs : List Event)
    (h : robustStep (env idx) reg st = StepOut.done resp evs) :
    runRobustLoop env reg idx (r + 1) st acc = (resp, acc ++ evs, idx) := by
  simp [runRobustLoop, h]

theorem runRobust_first_done (env : Nat → IterEnv) (reg : List String) (las : Bool)
    (resp : String) (evs : List Event)
    (h : robustStep (env 1) reg ⟨[], las⟩ = StepOut.done resp evs) :
    runRobust env reg las = (resp, evs, 1) := by
  have h9 := runRobustLoop_first_done env reg 1 9 ⟨[], las⟩ [] resp evs h
  simpa [runRobust] using h9

theorem runRobustLoop_exhaust (env : Nat → IterEnv) (reg : List String) :
    ∀ r idx st acc, (∀ i, idx ≤ i → i < idx + r → RStub reg (env i)) →
      (st.lastActionSucceeded = true → st.history = []) →
      (runRobustLoop env reg idx r st acc).1 =
          "Reached maximum iterations (10). Task may be partially complete."
        ∧ (runRobustLoop env reg idx r st acc).2.2 = idx + r - 1 := by
  intro r
  induction r with
  | zero => intro idx st acc _ _; exact ⟨rfl, rfl⟩
  | succ n ih =>
    intro idx st acc hstub hinv
    obtain ⟨evs, hstep⟩ :=
      robustStep_next_of_stub (env idx) reg st (hstub idx le_rfl (by omega)) hinv
    have hrw : runRobustLoop env reg idx (n + 1) st acc =
        runRobustLoop env reg (idx + 1) n
          ⟨st.history ++ [(env idx).context.value ++ ":" ++ (env idx).intentRes.intent ++ ":"
            ++ (env idx).intentRes.target], false⟩ (acc ++ evs) := by
      simp [runRobustLoop, hstep]
    rw [hrw]
    have hres := ih (idx + 1)
      ⟨st.history ++ [(env idx).context.value ++ ":" ++ (env idx).intentRes.intent ++ ":"
        ++ (env idx).intentRes.target], false⟩ (acc ++ evs)
      (fun i h1 h2 => hstub i (by omega) (by omega)) (by simp)
    refine ⟨hres.1, ?_⟩
    rw [hres.2]; omega

theorem runRobustLoop_count_le (env : Nat → IterEnv) (reg : List String) :
    ∀ r idx st acc, (runRobustLoop env reg idx r st acc).2.2 ≤ idx + r - 1 := by
  intro r
  induction r with
  | zero => intro idx st acc; exact le_refl _
  | succ n ih =>
    intro idx st acc
    rw [runRobustLoop]
    cases hstep : robustStep (env idx) reg st with
    | done resp evs => simp
    | next st' evs =>
      have hres := ih (idx + 1) st' (acc ++ evs)
      simp only []
      omega

theorem runVFLoop_never (env : Nat → Except String VFDecision)
    (h : ∀ i d, env i = Except.ok d → d.goalAchieved = false) :
    ∀ r iter, runVFLoop env iter r =
      ("Partially completed task. Performed " ++ toString (iter + r)
        ++ " actions but did not fully achieve goal.", iter + r) := by
  intro r
  induction r with
  | zero => intro iter; simp [runVFLoop]
  | succ n ih =>
    intro iter
    have harith : iter + 1 + n = iter + (n + 1) := by omega
    cases he : env (iter + 1) with
    | error e =>
      simp only [runVFLoop, he]
      rw [ih (iter + 1), harith]
    | ok d =>
      have hga := h (iter + 1) d he
      cases hna : d.nextAction with
      | none =>
        simp only [runVFLoop, he, hga, hna, Bool.false_eq_true, if_false]
        rw [ih (iter + 1), harith]
      | some a =>
        simp only [runVFLoop, he, hga, hna, Bool.false_eq_true, if_false]
        rw [ih (iter + 1), harith]

theorem runVFLoop_count_le (env : Nat → Except String VFDecision) :
    ∀ r iter, (runVFLoop env iter r).2 ≤ iter + r := by
  intro r
  induction r with
  | zero => intro iter; simp [runVFLoop]
  | succ n ih =>
    intro iter
    cases he : env (iter + 1) with
    | error e =>
      simp only [runVFLoop, he]
      have := ih (iter + 1); omega
    | ok d =>
      cases hga : d.goalAchieved with
      | true => simp only [runVFLoop, he, hga, if_true]; omega
      | false =>
        cases hna : d.nextAction with
        | none =>
          simp only [runVFLoop, he, hga, hna, Bool.false_eq_true, if_false]
          have := ih (iter + 1); omega
        | some a =>
          simp only [runVFLoop, he, hga, hna, Bool.false_eq_true, if_false]
          have := ih (iter + 1); omega

/-- C5: for every run whose first intent query reports `goal_achieved: true`
with a message, `process_request` returns that message after one iteration and
the event trace is empty — no registry tool and no handler is invoked. -/
theorem c5_goal_achieved_first (env : Nat → IterEnv) (reg : List String) (las : Bool)
    (m : String) (h1 : (env 1).intentRes.goalAchieved = true)
    (h2 : (env 1).intentRes.message = some m) :
    runRobust env reg las = (m, [], 1) := by
  apply runRobust_first_done
  simp [robustStep, h1, h2]

theorem c5_witness :
    runRobust (fun _ => ⟨ScreenContext.desktop, "Desktop",
      ⟨true, some "All done.", "done", ""⟩, none, ⟨none, false, none⟩⟩) [] false
      = ("All done.", [], 1) :=
  c5_goal_achieved_first _ [] false "All done." rfl rfl

/-- C9: for every run whose first proposal is an open/launch/start intent
while the observed context is the application context and the target appears
case-insensitively in the active window title, `process_request` returns the
already-open message with an empty event trace — no handler or tool is
dispatched. -/
theorem c9_already_open (env : Nat → IterEnv) (reg : List String) (las : Bool)
    (hga : (env 1).intentRes.goalAchieved = false)
    (hint : (containsSub (pyLower (env 1).intentRes.intent) "open"
        || containsSub (pyLower (env 1).intentRes.intent) "launch"
        || containsSub (pyLower (env 1).intentRes.intent) "start") = true)
    (hctx : (env 1).context = ScreenContext.app)
    (hwin : containsSub (pyLower (env 1).windowTitle)
      (pyLower (env 1).intentRes.target) = true) :
    runRobust env reg las =
      ("Done! " ++ (env 1).intentRes.target ++ " is already open.", [], 1) := by
  apply runRobust_first_done
  have hach : isGoalAlreadyAchieved (env 1).context (env 1).intentRes.intent
      (env 1).intentRes.target (env 1).windowTitle = true := by
    simp [isGoalAlreadyAchieved, hint, hctx, hwin]
  simp [robustStep, hga, hach]

theorem c9_witness :
    runRobust (fun _ => ⟨ScreenContext.app, "Untitled - Notepad",
      ⟨false, none, "open_app", "notepad"⟩, none, ⟨none, false, none⟩⟩) [] false
      = ("Done! notepad is already open.", [], 1) :=
  c9_already_open _ [] false rfl (by decide) rfl (by decide)

/-- C1 (amended): a deny-listed proposal at the first intent query always ends
the run immediately with an empty event trace (no registry tool, no handler);
and when the planner did not report the goal achieved and the already-achieved
heuristic does not match, the returned string is the fixed refusal.  In the
source the already-achieved check precedes the safety check, so it can preempt
the refusal message — see the counterexample. -/
theorem c1_blocked_refusal (env : Nat → IterEnv) (reg : List String) (las : Bool)
    (hblk : isBlockedIntent (env 1).intentRes.intent (env 1).intentRes.target = true) :
    (((env 1).intentRes.goalAchieved = false ∧
      isGoalAlreadyAchieved (env 1).context (env 1).intentRes.intent (env 1).intentRes.target
        (env 1).windowTitle = false) →
      runRobust env reg las =
        ("I can't safely do that ('" ++ (env 1).intentRes.intent
          ++ "'). Let me help in another way.", [], 1))
    ∧ (runRobust env reg las).2.1 = [] ∧ (runRobust env reg las).2.2 = 1 := by
  have hdone : ∃ resp, robustStep (env 1) reg ⟨[], las⟩ = StepOut.done resp [] := by
    cases hga : (env 1).intentRes.goalAchieved with
    | true =>
      exact ⟨(env 1).intentRes.message.getD "Task completed successfully.",
        by simp [robustStep, hga]⟩
    | false =>
      cases hach : isGoalAlreadyAchieved (env 1).context (env 1).intentRes.intent
          (env 1).intentRes.target (env 1).windowTitle with
      | true =>
        exact ⟨"Done! " ++ (env 1).intentRes.target ++ " is already open.",
          by simp [robustStep, hga, hach]⟩
      | false =>
        exact ⟨"I can't safely do that ('" ++ (env 1).intentRes.intent
          ++ "'). Let me help in another way.", by simp [robustStep, hga, hach, hblk]⟩
  obtain ⟨resp, hstep⟩ := hdone
  refine ⟨?_, ?_⟩
  · rintro ⟨hga, hach⟩
    apply runRobust_first_done
    simp [robustStep, hga, hach, hblk]
  · rw [runRobust_first_done env reg las resp [] hstep]
    exact ⟨rfl, rfl⟩

theorem c1_witness :
    runRobust (fun _ => ⟨ScreenContext.desktop, "Desktop",
        ⟨false, none, "open", "admin panel"⟩, none, ⟨none, false, none⟩⟩) [] false
      = ("I can't safely do that ('open'). Let me help in another way.", [], 1) :=
  (c1_blocked_refusal _ [] false (by decide)).1 ⟨rfl, by decide⟩

/-- C1 counterexample: the proposal `open` / `admin panel` contains the
deny-listed substring `admin`, yet with the application context and a matching
window title `process_request` returns the already-open message instead of the
fixed refusal, because `_is_goal_already_achieved` is consulted first. -/
theorem c1_counterexample :
    isBlockedIntent "open" "admin panel" = true ∧
    runRobust (fun _ => ⟨ScreenContext.app, "Admin Panel - Settings",
        ⟨false, none, "open", "admin panel"⟩, none, ⟨none, false, none⟩⟩) [] false
      = ("Done! admin panel is already open.", [], 1) ∧
    ("Done! admin panel is already open." : String)
      ≠ "I can't safely do that ('open'). Let me help in another way." :=
  ⟨by decide, by decide, by decide⟩

/-- C4 (amended): when the proposed action's signature `context:intent:target`
occurs among the last three action-history entries and
`last_action_succeeded` is set — and none of the goal-achieved,
already-achieved or safety checks preempts the guard — the iteration returns
the already-completed message with no handler or fallback invocation. -/
theorem c4_duplicate_guard (e : IterEnv) (reg : List String) (st : OrchState)
    (hga : e.intentRes.goalAchieved = false)
    (hach : isGoalAlreadyAchieved e.context e.intentRes.intent e.intentRes.target
      e.windowTitle = false)
    (hblk : isBlockedIntent e.intentRes.intent e.intentRes.target = false)
    (hdup : (st.history.drop (st.history.length - 3)).contains
        (e.context.value ++ ":" ++ e.intentRes.intent ++ ":" ++ e.intentRes.target) = true)
    (hlas : st.lastActionSucceeded = true) :
    robustStep e reg st =
      StepOut.done ("Done! I already completed '" ++ e.intentRes.intent ++ "' on '"
        ++ e.intentRes.target ++ "'.") [] := by
  have hcond : ((st.history.drop (st.history.length - 3)).contains
      (e.context.value ++ ":" ++ e.intentRes.intent ++ ":" ++ e.intentRes.target)
        && st.lastActionSucceeded) = true := by
    rw [hdup, hlas]; rfl
  simp [robustStep, hga, hach, hblk, hcond]
  intro hno
  exfalso
  have hmem : e.context.value ++ ":" ++ e.intentRes.intent ++ ":" ++ e.intentRes.target ∈
      List.drop (st.history.length - 3) st.history := by simpa using hdup
  have hfalse := hno hmem
  rw [hlas] at hfalse
  exact Bool.noConfusion hfalse

theorem c4_witness :
    robustStep ⟨ScreenContext.browser, "Google Chrome",
        ⟨false, none, "open", "youtube.com"⟩, none, ⟨none, false, none⟩⟩ []
        ⟨["browser:open:youtube.com"], true⟩
      = StepOut.done "Done! I already completed 'open' on 'youtube.com'." [] :=
  c4_duplicate_guard _ [] _ rfl (by decide) (by decide) (by decide) rfl

/-- C4 counterexample: at the second iteration the duplicate condition holds
(the signature `application:open:notepad` is in the history and the previous
fallback action succeeded), yet the run returns the already-open message of
the preceding `_is_goal_already_achieved` check, not the already-completed
message. -/
theorem c4_counterexample :
    ((OrchState.mk ["application:open:notepad"] true).history.drop
        ((OrchState.mk ["application:open:notepad"] true).history.length - 3)).contains
      "application:open:notepad" = true ∧
    robustStep ⟨ScreenContext.app, "Untitled - Notepad",
        ⟨false, none, "open", "notepad"⟩, none, ⟨none, false, none⟩⟩ []
        ⟨["application:open:notepad"], true⟩
      = StepOut.done "Done! notepad is already open." [] ∧
    ("Done! notepad is already open." : String)
      ≠ "Done! I already completed 'open' on 'notepad'." ∧
    runRobust (fun i => if i = 1 then
          ⟨ScreenContext.app, "Program Manager", ⟨false, none, "open", "notepad"⟩,
            none, ⟨none, false, none⟩⟩
        else
          ⟨ScreenContext.app, "Untitled - Notepad", ⟨false, none, "open", "notepad"⟩,
            none, ⟨none, false, none⟩⟩) ["launch_application"] false
      = ("Done! notepad is already open.", [Event.toolCall "launch_application" "notepad"], 2) :=
  ⟨by decide, by decide, by decide, by decide⟩

/-- C2: the orchestration loops are hard-bounded — for every environment the
robust loop enters at most `MAX_ITERATIONS = 10` iterations and the
vision-first loop at most `max_iterations = 15`; and with a planner stub that
never reports the goal achieved and whose handler and fallback always fail
(`RStub`), each loop runs its full bound and returns its
reached-maximum-iterations message. -/
theorem c2_iteration_bound :
    (∀ env reg las, (runRobust env reg las).2.2 ≤ 10)
    ∧ (∀ env reg las, (∀ i, 1 ≤ i → i ≤ 10 → RStub reg (env i)) →
        (runRobust env reg las).1 =
            "Reached maximum iterations (10). Task may be partially complete."
          ∧ (runRobust env reg las).2.2 = 10)
    ∧ (∀ env, (runVisionFirst env).2 ≤ 15)
    ∧ (∀ env, (∀ i d, env i = Except.ok d → d.goalAchieved = false) →
        runVisionFirst env =
          ("Partially completed task. Performed 15 actions but did not fully achieve goal.",
            15)) := by
  refine ⟨?_, ?_, ?_, ?_⟩
  · intro env reg las
    exact runRobustLoop_count_le env reg 10 1 ⟨[], las⟩ []
  · intro env reg las hstub
    have hres := runRobustLoop_exhaust env reg 10 1 ⟨[], las⟩ []
      (fun i h1 h2 => hstub i h1 (by omega)) (fun _ => rfl)
    exact ⟨hres.1, hres.2⟩
  · intro env
    exact runVFLoop_count_le env 15 0
  · intro env hga
    exact runVFLoop_never env hga 15 0

theorem c2_witness :
    (runRobust (fun _ => ⟨ScreenContext.desktop, "Desktop", ⟨false, none, "wiggle", "x"⟩,
        some ⟨false, false⟩, ⟨none, false, none⟩⟩) [] true).1
      = "Reached maximum iterations (10). Task may be partially complete."
    ∧ runVisionFirst (fun _ => Except.ok ⟨false, none, none⟩)
      = ("Partially completed task. Performed 15 actions but did not fully achieve goal.", 15) := by
  constructor
  · exact (c2_iteration_bound.2.1 _ [] true
      (fun i h1 h2 => ⟨rfl, by decide, by decide, fun hb h => by cases h; rfl, by decide⟩)).1
  · exact c2_iteration_bound.2.2.2 _ (fun i d h => by cases h; rfl)

/-- C8 (amended): when the context handler fails without requesting vision,
the fallback is `_run_vision_step`, which for a planner without the
vision-detection methods maps the intent keywords directly onto the registry
tools (open/launch/start to `launch_application`, search to `search_google`,
navigate/go to `open_website`, type to `type_text`) and performs no
vision-based invocation at all; for a vision-capable planner, however, the
element-detection path runs before any tool mapping — see the
counterexample. -/
theorem c8_tool_mapping (v : VisionEnv) (reg : List String) (intent target : String)
    (h1 : v.findBest = none) (h2 : v.findOnScreen = none) :
    (((containsSub (pyLower intent) "open" || containsSub (pyLower intent) "launch"
        || containsSub (pyLower intent) "start") && reg.contains "launch_application") = true →
      runVisionStep v reg intent target = ⟨true, [Event.toolCall "launch_application" target], true⟩)
    ∧ (((containsSub (pyLower intent) "open" || containsSub (pyLower intent) "launch"
        || containsSub (pyLower intent) "start") && reg.contains "launch_application") = false →
      (containsSub (pyLower intent) "search" && reg.contains "search_google") = true →
      runVisionStep v reg intent target = ⟨true, [Event.toolCall "search_google" target], true⟩)
    ∧ (((containsSub (pyLower intent) "open" || containsSub (pyLower intent) "launch"
        || containsSub (pyLower intent) "start") && reg.contains "launch_application") = false →
      (containsSub (pyLower intent) "search" && reg.contains "search_google") = false →
      ((containsSub (pyLower intent) "navigate" || containsSub (pyLower intent) "go")
        && reg.contains "open_website") = true →
      runVisionStep v reg intent target = ⟨true, [Event.toolCall "open_website" target], true⟩)
    ∧ (((containsSub (pyLower intent) "open" || containsSub (pyLower intent) "launch"
        || containsSub (pyLower intent) "start") && reg.contains "launch_application") = false →
      (containsSub (pyLower intent) "search" && reg.contains "search_google") = false →
      ((containsSub (pyLower intent) "navigate" || containsSub (pyLower intent) "go")
        && reg.contains "open_website") = false →
      (containsSub (pyLower intent) "type" && reg.contains "type_text") = true →
      runVisionStep v reg intent target = ⟨true, [Event.toolCall "type_text" target], true⟩)
    ∧ (∀ ev ∈ (runVisionStep v reg intent target).events, ∃ n a, ev = Event.toolCall n a) := by
  have hform : runVisionStep v reg intent target
      = visionMap reg target (pyLower intent) [] := by
    simp [runVisionStep, visionLegacy, h1, h2]
  refine ⟨?_, ?_, ?_, ?_, ?_⟩
  · intro ha
    rw [hform]; unfold visionMap
    rw [if_pos ha]; simp
  · intro ha hb
    rw [hform]; unfold visionMap
    rw [if_neg (by rw [ha]; exact Bool.false_ne_true), if_pos hb]; simp
  · intro ha hb hc
    rw [hform]; unfold visionMap
    rw [if_neg (by rw [ha]; exact Bool.false_ne_true),
      if_neg (by rw [hb]; exact Bool.false_ne_true), if_pos hc]; simp
  · intro ha hb hc hd
    rw [hform]; unfold visionMap
    rw [if_neg (by rw [ha]; exact Bool.false_ne_true),
      if_neg (by rw [hb]; exact Bool.false_ne_true),
      if_neg (by rw [hc]; exact Bool.false_ne_true), if_pos hd]; simp
  · intro ev hev
    rw [hform] at hev
    unfold visionMap at hev
    repeat' split at hev
    all_goals simp at hev
    all_goals exact ⟨_, _, hev⟩

theorem c8_witness :
    runVisionStep ⟨none, false, none⟩ ["launch_application", "search_google"] "open_app" "notepad"
      = ⟨true, [Event.toolCall "launch_application" "notepad"], true⟩ :=
  (c8_tool_mapping ⟨none, false, none⟩ ["launch_application", "search_google"]
    "open_app" "notepad" rfl rfl).1 (by decide)

/-- C8 counterexample: with a vision-capable planner the tool fallback runs
universal element detection and interacts with the found element before — in
fact instead of — any registry tool mapping, even though the mapped tool
(`search_google`) is present in the registry. -/
theorem c8_counterexample :
    runVisionStep ⟨some (some ⟨"Search box"⟩), true, none⟩ ["search_google"] "search" "cats"
      = ⟨true, [Event.visionFindBest "search" "cats",
          Event.visionInteract "Search box" "click_and_type"], true⟩
    ∧ (["search_google"] : List String).contains "search_google" = true
    ∧ ∀ n a, Event.toolCall n a ∉ (runVisionStep ⟨some (some ⟨"Search box"⟩), true, none⟩
        ["search_google"] "search" "cats").events := by
  refine ⟨by decide, by decide, ?_⟩
  intro n a h
  simp [runVisionStep] at h

theorem pyFind_neg_of_not_mem (c : Char) : ∀ s : List Char, c ∉ s → pyFind s c = -1 := by
  intro s
  induction s with
  | nil => intro _; rfl
  | cons a rest ih =>
    intro h
    have ha : ¬(a = c) := fun hac => h (hac ▸ List.mem_cons_self a rest)
    have hr : c ∉ rest := fun hm => h (List.mem_cons_of_mem a hm)
    simp [pyFind, ha, ih hr]

theorem pyFind_nonneg_of_mem (c : Char) : ∀ s : List Char, c ∈ s → 0 ≤ pyFind s c := by
  intro s
  induction s with
  | nil => intro h; exact absurd h (List.not_mem_nil c)
  | cons a rest ih =>
    intro h
    by_cases hac : a = c
    · simp [pyFind, hac]
    · have hm : c ∈ rest := by
        rcases List.mem_cons.mp h with h1 | h1
        · exact absurd h1.symm hac
        · exact h1
      have hr := ih hm
      have hne : pyFind rest c ≠ -1 := by omega
      simp [pyFind, hac, hne]
      omega

theorem pyRfind_ge_neg_one (c : Char) : ∀ s : List Char, -1 ≤ pyRfind s c := by
  intro s
  induction s with
  | nil => simp [pyRfind]
  | cons a rest ih =>
    by_cases hr : pyRfind rest c = -1
    · by_cases hac : a = c <;> simp [pyRfind, hr, hac]
    · simp [pyRfind, hr]; omega

theorem pyRfind_neg_of_not_mem (c : Char) : ∀ s : List Char, c ∉ s → pyRfind s c = -1 := by
  intro s
  induction s with
  | nil => intro _; rfl
  | cons a rest ih =>
    intro h
    have ha : ¬(a = c) := fun hac => h (hac ▸ List.mem_cons_self a rest)
    have hr : c ∉ rest := fun hm => h (List.mem_cons_of_mem a hm)
    simp [pyRfind, ha, ih hr]

theorem pyRfind_nonneg_of_mem (c : Char) : ∀ s : List Char, c ∈ s → 0 ≤ pyRfind s c := by
  intro s
  induction s with
  | nil => intro h; exact absurd h (List.not_mem_nil c)
  | cons a rest ih =>
    intro h
    by_cases hr : pyRfind rest c = -1
    · have hm : a = c := by
        rcases List.mem_cons.mp h with h1 | h1
        · exact h1.symm
        · have := ih h1; omega
      simp [pyRfind, hr, hm]
    · have := pyRfind_ge_neg_one c rest
      simp [pyRfind, hr]
      omega

theorem pyFind_take_not_mem (c : Char) : ∀ s : List Char, c ∈ s →
    c ∉ s.take (pyFind s c).toNat := by
  intro s
  induction s with
  | nil => intro h; exact absurd h (List.not_mem_nil c)
  | cons a rest ih =>
    intro h
    by_cases hac : a = c
    · simp [pyFind, hac]
    · have hm : c ∈ rest := by
        rcases List.mem_cons.mp h with h1 | h1
        · exact absurd h1.symm hac
        · exact h1
      have hr := pyFind_nonneg_of_mem c rest hm
      have hne : pyFind rest c ≠ -1 := by omega
      have htn : (pyFind rest c + 1).toNat = (pyFind rest c).toNat + 1 := by omega
      simp [pyFind, hac, hne, htn]
      exact ⟨fun hca => hac hca.symm, ih hm⟩

theorem pyRfind_drop_not_mem (c : Char) : ∀ s : List Char,
    c ∉ s.drop ((pyRfind s c).toNat + 1) := by
  intro s
  induction s with
  | nil => simp
  | cons a rest ih =>
    by_cases hr : pyRfind rest c = -1
    · have hnm : c ∉ rest := fun hm => by have := pyRfind_nonneg_of_mem c rest hm; omega
      by_cases hac : a = c <;> simp [pyRfind, hr, hac, hnm]
    · have hge := pyRfind_ge_neg_one c rest
      have htn : (pyRfind rest c + 1).toNat + 1 = ((pyRfind rest c).toNat + 1) + 1 := by omega
      simp [pyRfind, hr, htn]
      simpa using ih

/-- C7: `_parse_plan` falls back — without raising — to a plan with no steps
and the raw reply as analysis and final response whenever the reply contains
no `'\x7b'`, no `'\x7d'`, or its extracted substring fails to JSON-parse; a
successful parse of the extracted substring is returned as the plan; and the
extracted substring runs from the first `'\x7b'` to the last `'\x7d'` of the
reply. -/
theorem c7_plan_parse :
    (∀ (j : String → Option ParsedPlan) txt, '{' ∉ txt.data →
      parsePlan j txt = ⟨some txt, [], some txt⟩)
    ∧ (∀ (j : String → Option ParsedPlan) txt, '}' ∉ txt.data →
      parsePlan j txt = ⟨some txt, [], some txt⟩)
    ∧ (∀ (j : String → Option ParsedPlan) txt, '{' ∈ txt.data → '}' ∈ txt.data →
      j (pyExtract txt) = none → parsePlan j txt = ⟨some txt, [], some txt⟩)
    ∧ (∀ (j : String → Option ParsedPlan) txt p, '{' ∈ txt.data → '}' ∈ txt.data →
      j (pyExtract txt) = some p → parsePlan j txt = p)
    ∧ (∀ txt, '{' ∈ txt.data → '}' ∈ txt.data →
      pyFind txt.data '{' ≤ pyRfind txt.data '}' →
      ∃ pre post, txt.data = pre ++ (pyExtract txt).data ++ post
        ∧ '{' ∉ pre ∧ '}' ∉ post) := by
  refine ⟨?_, ?_, ?_, ?_, ?_⟩
  · intro j txt h
    have hf := pyFind_neg_of_not_mem '{' txt.data h
    simp [parsePlan, hf, fallbackPlan]
  · intro j txt h
    have hr := pyRfind_neg_of_not_mem '}' txt.data h
    simp [parsePlan, hr, fallbackPlan]
  · intro j txt h1 h2 hj
    have hf := pyFind_nonneg_of_mem '{' txt.data h1
    have hr := pyRfind_nonneg_of_mem '}' txt.data h2
    have hne1 : ¬(pyFind txt.data '{' = -1) := by omega
    have hne2 : ¬(pyRfind txt.data '}' + 1 = 0) := by omega
    simp only [pyExtract] at hj
    simp [parsePlan, hne1, hne2, hj, fallbackPlan]
  · intro j txt p h1 h2 hj
    have hf := pyFind_nonneg_of_mem '{' txt.data h1
    have hr := pyRfind_nonneg_of_mem '}' txt.data h2
    have hne1 : ¬(pyFind txt.data '{' = -1) := by omega
    have hne2 : ¬(pyRfind txt.data '}' + 1 = 0) := by omega
    simp only [pyExtract] at hj
    simp [parsePlan, hne1, hne2, hj]
  · intro txt h1 h2 hle
    have hf := pyFind_nonneg_of_mem '{' txt.data h1
    have hr := pyRfind_nonneg_of_mem '}' txt.data h2
    refine ⟨txt.data.take (pyFind txt.data '{').toNat,
      txt.data.drop ((pyRfind txt.data '}').toNat + 1), ?_,
      pyFind_take_not_mem '{' txt.data h1, pyRfind_drop_not_mem '}' txt.data⟩
    have hdata : (pyExtract txt).data
        = pySlice txt.data (pyFind txt.data '{').toNat ((pyRfind txt.data '}' + 1).toNat) := rfl
    rw [hdata]
    have htn : (pyRfind txt.data '}' + 1).toNat = (pyRfind txt.data '}').toNat + 1 := by omega
    rw [htn]
    have hab : (pyFind txt.data '{').toNat ≤ (pyRfind txt.data '}').toNat + 1 := by omega
    rw [pySlice]
    have step1 : txt.data.take (pyFind txt.data '{').toNat
        ++ (txt.data.take ((pyRfind txt.data '}').toNat + 1)).drop (pyFind txt.data '{').toNat
        = txt.data.take ((pyRfind txt.data '}').toNat + 1) := by
      have := List.take_append_drop (pyFind txt.data '{').toNat
        (txt.data.take ((pyRfind txt.data '}').toNat + 1))
      rw [List.take_take] at this
      rw [Nat.min_eq_left hab] at this
      exact this
    rw [step1, List.take_append_drop]

theorem c7_witness :
    parsePlan (fun _ => none) "hello" = ⟨some "hello", [], some "hello"⟩
    ∧ parsePlan (fun s => if s = "\x7bx\x7d" then some ⟨some "A", [], some "R"⟩ else none)
        "aa \x7bx\x7d bb" = ⟨some "A", [], some "R"⟩ := by
  constructor
  · exact c7_plan_parse.1 _ _ (by decide)
  · exact c7_plan_parse.2.2.2.1 _ _ _ (by decide) (by decide) (by decide)

theorem wordChar_not_special (c : Char) (h : wordChar c = true) :
    c ≠ '$' ∧ c ≠ '{' ∧ c ≠ '<' := by
  refine ⟨?_, ?_, ?_⟩ <;> rintro rfl <;> exact absurd h (by decide)

theorem takeWhile_word_append (k s : List Char) (hk : ∀ c ∈ k, wordChar c = true)
    (hs : nonWordHead s) : (k ++ s).takeWhile wordChar = k := by
  induction k with
  | nil =>
    rcases hs with h | ⟨c, t, hst, hc⟩
    · simp [h]
    · simp [hst, List.takeWhile_cons, hc]
  | cons a k' ih =>
    have ha := hk a (List.mem_cons_self a k')
    simp [List.takeWhile_cons, ha,
      ih (fun c hc => hk c (List.mem_cons_of_mem a hc))]

theorem passDollar_clean (outs : List (String × String)) :
    ∀ (fuel : Nat) (l : List Char), (∀ c ∈ l, c ≠ '$') →
      passDollar outs fuel l = l := by
  intro fuel l
  induction l generalizing fuel with
  | nil => intro _; cases fuel <;> rfl
  | cons a rest ih =>
    intro h
    have ha : ¬(a = '$') := h a (List.mem_cons_self a rest)
    cases fuel with
    | zero => rfl
    | succ f => simp [passDollar, ha, ih f (fun c hc => h c (List.mem_cons_of_mem a hc))]

theorem passDollar_append (outs : List (String × String)) :
    ∀ (p : List Char) (fuel : Nat) (rest : List Char), (∀ c ∈ p, c ≠ '$') →
      passDollar outs fuel (p ++ rest) = p ++ passDollar outs (fuel - p.length) rest := by
  intro p
  induction p with
  | nil => intro fuel rest _; simp
  | cons a p' ih =>
    intro fuel rest hp
    have ha : ¬(a = '$') := hp a (List.mem_cons_self a p')
    cases fuel with
    | zero => simp [passDollar]
    | succ f =>
      simp [passDollar, ha, ih f rest (fun c hc => hp c (List.mem_cons_of_mem a hc)),
        Nat.succ_sub_succ]

theorem passDollar_hit (outs : List (String × String)) (fuel : Nat) (k s : List Char)
    (hk : k ≠ []) (hkw : ∀ c ∈ k, wordChar c = true) (hs : nonWordHead s) :
    passDollar outs (fuel + 1) ('$' :: (k ++ s)) =
      (match outs.lookup (String.mk k) with
        | some v => v.data
        | none => '$' :: k) ++ passDollar outs fuel s := by
  have htw := takeWhile_word_append k s hkw hs
  have hne : k.isEmpty = false := by
    cases k with
    | nil => exact absurd rfl hk
    | cons _ _ => rfl
  have hdrop : (k ++ s).drop k.length = s := List.drop_left k s
  simp [passDollar, htw, hne, hdrop]

theorem passBracket_clean (outs : List (String × String)) (openC closeC : Char) :
    ∀ (fuel : Nat) (l : List Char), (∀ c ∈ l, c ≠ openC) →
      passBracket outs openC closeC fuel l = l := by
  intro fuel l
  induction l generalizing fuel with
  | nil => intro _; cases fuel <;> rfl
  | cons a rest ih =>
    intro h
    have ha : ¬(a = openC) := h a (List.mem_cons_self a rest)
    cases fuel with
    | zero => rfl
    | succ f =>
      simp [passBracket, ha, ih f (fun c hc => h c (List.mem_cons_of_mem a hc))]

theorem passDesktop_clean (outs : List (String × String)) :
    ∀ (fuel : Nat) (l : List Char), cleanChars l →
      passDesktop outs fuel l = l := by
  intro fuel l
  induction l generalizing fuel with
  | nil => intro _; cases fuel <;> rfl
  | cons a rest ih =>
    intro h
    obtain ⟨h1, h2, h3⟩ := h a (List.mem_cons_self a rest)
    cases fuel with
    | zero => rfl
    | succ f =>
      simp [passDesktop, h1, h2, h3, ih f (fun c hc => h c (List.mem_cons_of_mem a hc))]

theorem passDesktop_append (outs : List (String × String)) :
    ∀ (p : List Char) (fuel : Nat) (rest : List Char), cleanChars p →
      passDesktop outs fuel (p ++ rest) = p ++ passDesktop outs (fuel - p.length) rest := by
  intro p
  induction p with
  | nil => intro fuel rest _; simp
  | cons a p' ih =>
    intro fuel rest hp
    obtain ⟨h1, h2, h3⟩ := hp a (List.mem_cons_self a p')
    cases fuel with
    | zero => simp [passDesktop]
    | succ f =>
      simp [passDesktop, h1, h2, h3,
        ih f rest (fun c hc => hp c (List.mem_cons_of_mem a hc)), Nat.succ_sub_succ]

theorem passDesktop_dollar (outs : List (String × String)) (fuel : Nat) (rest : List Char)
    (hnd : "desktop_path".data.isPrefixOf rest = false) :
    passDesktop outs (fuel + 1) ('$' :: rest) = '$' :: passDesktop outs fuel rest := by
  simp [passDesktop, hnd]

theorem substStr_hit (outs : List (String × String)) (p k s v : String)
    (hk : k.data ≠ []) (hkw : ∀ c ∈ k.data, wordChar c = true)
    (hs : nonWordHead s.data)
    (hp : cleanChars p.data) (hscl : cleanChars s.data) (hv : cleanChars v.data)
    (hlook : outs.lookup k = some v) :
    substStr outs (p ++ "$" ++ k ++ s) = p ++ v ++ s := by
  have hdata : (p ++ "$" ++ k ++ s).data = p.data ++ ('$' :: (k.data ++ s.data)) := by
    simp [String.data_append]
  have hclean : cleanChars (p.data ++ (v.data ++ s.data)) := by
    intro c hc
    rcases List.mem_append.mp hc with h | h
    · exact hp c h
    · rcases List.mem_append.mp h with h | h
      · exact hv c h
      · exact hscl c h
  have e1 : passDollar outs (p ++ "$" ++ k ++ s).data.length (p ++ "$" ++ k ++ s).data
      = p.data ++ (v.data ++ s.data) := by
    rw [hdata, passDollar_append outs p.data _ _ (fun c hc => (hp c hc).1)]
    have hfuel : (p.data ++ '$' :: (k.data ++ s.data)).length - p.data.length
        = (k.data ++ s.data).length + 1 := by
      simp [List.length_append]
    rw [hfuel, passDollar_hit outs _ k.data s.data hk hkw hs]
    have hmk : String.mk k.data = k := rfl
    rw [hmk, hlook, passDollar_clean outs _ s.data (fun c hc => (hscl c hc).1)]
  simp only [substStr]
  rw [e1, passBracket_clean outs '{' '}' _ _ (fun c hc => (hclean c hc).2.1),
    passBracket_clean outs '<' '>' _ _ (fun c hc => (hclean c hc).2.2),
    passDesktop_clean outs _ _ hclean]
  have hfin : (p ++ v ++ s).data = p.data ++ (v.data ++ s.data) := by
    simp [String.data_append]
  rw [← hfin]

theorem substStr_miss (outs : List (String × String)) (p k s : String)
    (hk : k.data ≠ []) (hkw : ∀ c ∈ k.data, wordChar c = true)
    (hs : nonWordHead s.data)
    (hp : cleanChars p.data) (hscl : cleanChars s.data)
    (hlook : outs.lookup k = none)
    (hnd : "desktop_path".data.isPrefixOf (k.data ++ s.data) = false) :
    substStr outs (p ++ "$" ++ k ++ s) = p ++ "$" ++ k ++ s := by
  have hdata : (p ++ "$" ++ k ++ s).data = p.data ++ ('$' :: (k.data ++ s.data)) := by
    simp [String.data_append]
  have hkclean : cleanChars k.data := by
    intro c hc
    obtain ⟨h1, h2, h3⟩ := wordChar_not_special c (hkw c hc)
    exact ⟨h1, h2, h3⟩
  have hksclean : cleanChars (k.data ++ s.data) := by
    intro c hc
    rcases List.mem_append.mp hc with h | h
    · exact hkclean c h
    · exact hscl c h
  have e1 : passDollar outs (p ++ "$" ++ k ++ s).data.length (p ++ "$" ++ k ++ s).data
      = p.data ++ ('$' :: (k.data ++ s.data)) := by
    rw [hdata, passDollar_append outs p.data _ _ (fun c hc => (hp c hc).1)]
    have hfuel : (p.data ++ '$' :: (k.data ++ s.data)).length - p.data.length
        = (k.data ++ s.data).length + 1 := by
      simp [List.length_append]
    rw [hfuel, passDollar_hit outs _ k.data s.data hk hkw hs]
    have hmk : String.mk k.data = k := rfl
    rw [hmk, hlook, passDollar_clean outs _ s.data (fun c hc => (hscl c hc).1)]
    simp
  have hnb : ∀ c ∈ p.data ++ ('$' :: (k.data ++ s.data)), c ≠ '{' := by
    intro c hc
    rcases List.mem_append.mp hc with h | h
    · exact (hp c h).2.1
    · rcases List.mem_cons.mp h with h | h
      · rw [h]; decide
      · exact (hksclean c h).2.1
  have hnb2 : ∀ c ∈ p.data ++ ('$' :: (k.data ++ s.data)), c ≠ '<' := by
    intro c hc
    rcases List.mem_append.mp hc with h | h
    · exact (hp c h).2.2
    · rcases List.mem_cons.mp h with h | h
      · rw [h]; decide
      · exact (hksclean c h).2.2
  have e4 : passDesktop outs (p.data ++ ('$' :: (k.data ++ s.data))).length
      (p.data ++ ('$' :: (k.data ++ s.data))) = p.data ++ ('$' :: (k.data ++ s.data)) := by
    rw [passDesktop_append outs p.data _ _ hp]
    have hfuel : (p.data ++ '$' :: (k.data ++ s.data)).length - p.data.length
        = (k.data ++ s.data).length + 1 := by
      simp [List.length_append]
    rw [hfuel, passDesktop_dollar outs _ _ hnd,
      passDesktop_clean outs _ _ hksclean]
  simp only [substStr]
  rw [e1, passBracket_clean outs '{' '}' _ _ hnb, passBracket_clean outs '<' '>' _ _ hnb2, e4,
    ← hdata]

/-- C3: variable binding.  A string parameter of the form `p ++ "$" ++ k ++ s`
whose key `k` (a maximal word-character run, as in `$stepN_result`) is bound in
the prior results has the reference replaced by the stored value; an unbound
reference is left verbatim; the spec's round-trip examples hold concretely;
and non-string parameter values pass through unchanged.  Binding is a total
function — the embedding returns a value for every input, modelling "never
raises".  The cleanness side conditions say the surrounding text and the
stored value contain no further substitution syntax, which is what the claim's
examples exercise. -/
theorem c3_variable_binding :
    (∀ (outs : List (String × String)) (pk p k s v : String),
      k.data ≠ [] → (∀ c ∈ k.data, wordChar c = true) → nonWordHead s.data →
      cleanChars p.data → cleanChars s.data → cleanChars v.data →
      outs.lookup k = some v →
      substituteVariables [(pk, PyVal.str (p ++ "$" ++ k ++ s))] outs
        = [(pk, PyVal.str (p ++ v ++ s))])
    ∧ (∀ (outs : List (String × String)) (pk p k s : String),
      k.data ≠ [] → (∀ c ∈ k.data, wordChar c = true) → nonWordHead s.data →
      cleanChars p.data → cleanChars s.data →
      outs.lookup k = none →
      "desktop_path".data.isPrefixOf (k.data ++ s.data) = false →
      substituteVariables [(pk, PyVal.str (p ++ "$" ++ k ++ s))] outs
        = [(pk, PyVal.str (p ++ "$" ++ k ++ s))])
    ∧ substituteVariables [("file_path", PyVal.str "$step1_result/out.txt")]
        [("step1_result", "C:\\Users\\x\\Desktop")]
      = [("file_path", PyVal.str "C:\\Users\\x\\Desktop/out.txt")]
    ∧ substituteVariables [("file_path", PyVal.str "$step9_result")]
        [("step1_result", "C:\\Users\\x\\Desktop")]
      = [("file_path", PyVal.str "$step9_result")]
    ∧ (∀ (outs : List (String × String)) (v : PyVal), (∀ s, v ≠ PyVal.str s) →
      substVal outs v = v) := by
  refine ⟨?_, ?_, by decide, by decide, ?_⟩
  · intro outs pk p k s v hk hkw hs hp hscl hv hlook
    simp [substituteVariables, substVal,
      substStr_hit outs p k s v hk hkw hs hp hscl hv hlook]
  · intro outs pk p k s hk hkw hs hp hscl hlook hnd
    simp [substituteVariables, substVal,
      substStr_miss outs p k s hk hkw hs hp hscl hlook hnd]
  · intro outs v hv
    cases v with
    | str s => exact absurd rfl (hv s)
    | num n => rfl
    | bool b => rfl

theorem c3_witness :
    substituteVariables [("file_path", PyVal.str ("" ++ "$" ++ "step1_result" ++ "/out.txt"))]
        [("step1_result", "C:\\Users\\x\\Desktop")]
      = [("file_path", PyVal.str ("" ++ "C:\\Users\\x\\Desktop" ++ "/out.txt"))]
    ∧ substituteVariables [("file_path", PyVal.str ("" ++ "$" ++ "step9_result" ++ "!"))]
        [("step1_result", "C:\\Users\\x\\Desktop")]
      = [("file_path", PyVal.str ("" ++ "$" ++ "step9_result" ++ "!"))]
    ∧ substVal [] (PyVal.num 3) = PyVal.num 3 := by
  refine ⟨?_, ?_, ?_⟩
  · exact c3_variable_binding.1 _ "file_path" "" "step1_result" "/out.txt" "C:\\Users\\x\\Desktop"
      (by decide) (by decide) (Or.inr ⟨'/', "out.txt".data, rfl, by decide⟩)
      (by intro c hc; simp at hc) (by intro c hc; revert hc; revert c; decide)
      (by intro c hc; revert hc; revert c; decide) (by decide)
  · exact c3_variable_binding.2.1 _ "file_path" "" "step9_result" "!"
      (by decide) (by decide) (Or.inr ⟨'!', [], rfl, by decide⟩)
      (by intro c hc; simp at hc) (by intro c hc; revert hc; revert c; decide)
      (by decide) (by decide)
  · exact c3_variable_binding.2.2.2.2 [] (PyVal.num 3) (fun s h => PyVal.noConfusion h)

theorem lookup_append_of_none :
    ∀ (l1 l2 : List (String × String)) (k : String), l1.lookup k = none →
      (l1 ++ l2).lookup k = l2.lookup k := by
  intro l1
  induction l1 with
  | nil => intro l2 k _; rfl
  | cons a tl ih =>
    obtain ⟨a1, a2⟩ := a
    intro l2 k h
    rw [List.lookup_cons] at h
    by_cases hk : (k == a1) = true
    · rw [hk] at h; exact absurd h (by simp)
    · have hk' : (k == a1) = false := by
        cases hkb : (k == a1) with
        | true => exact absurd hkb hk
        | false => rfl
      rw [hk'] at h
      simp only [List.cons_append, List.lookup_cons, hk']
      exact ih l2 k h

/-- C6 (amended): a tool that raises inside the executor is recorded as a
failed `ExecutionResult` carrying the exception text; the plan loop still
executes every remaining step; and `run` returns a string to the caller
provided the verifier stage yields an error, an unparseable reply, or a parsed
reply containing both `verification_status` and `user_response`.  Without that
proviso `run` can raise — see the counterexample, where a parsed verifier
reply lacking `verification_status` makes `status.upper()` throw
`AttributeError`. -/
theorem c6_error_capture :
    (∀ (reg : ToolReg) (t : String) f (params : List (String × PyVal)) (e : String),
      reg t = some f → f params = Except.error e →
      executionAgentProcess reg (some t) params
        = AgentResult.errorMsg ⟨some t, none, some e, false⟩)
    ∧ (∀ (reg : ToolReg) (create : CreateOracle) (steps : List PlanStep)
        (i : Nat) (outs : List (String × String)),
      ((execSteps reg create i steps outs).1).length = steps.length)
    ∧ (∀ (env : MASEnv) (reg : ToolReg),
      (∀ results reply c, env.verGen results = Except.ok reply →
        verParse env.jparseVer reply = some c →
        (∃ st, c.verificationStatus = some st) ∧ ∃ ur, c.userResponse = some ur) →
      ∃ s, masRun env reg = RunOutcome.ok (some s)) := by
  refine ⟨?_, ?_, ?_⟩
  · intro reg t f params e hreg hf
    simp [executionAgentProcess, hreg, hf]
  · intro reg create steps
    induction steps with
    | nil => intro i outs; rfl
    | cons step rest ih =>
      intro i outs
      simp only [execSteps, List.length_cons]
      rw [ih (i + 1) (execStep reg create i step outs).2]
  · intro env reg hver
    cases hnt : env.needsTools with
    | false => exact ⟨env.convReply, by simp [masRun, hnt]⟩
    | true =>
      cases hp : env.planGen with
      | error e => exact ⟨"Error: " ++ e, by simp [masRun, hnt, hp]⟩
      | ok planText =>
        cases hv : env.verGen (execSteps reg env.create 1
            (parsePlan env.jparsePlan planText).steps []).1 with
        | error e =>
          exact ⟨(parsePlan env.jparsePlan planText).finalResponse.getD "Task completed.",
            by simp [masRun, hnt, hp, hv]⟩
        | ok reply =>
          cases hvp : verParse env.jparseVer reply with
          | none =>
            exact ⟨(parsePlan env.jparsePlan planText).finalResponse.getD "Task completed.",
              by simp [masRun, hnt, hp, hv, hvp]⟩
          | some content =>
            obtain ⟨⟨st, hst⟩, ⟨ur, hur⟩⟩ := hver _ _ _ hv hvp
            exact ⟨ur, by simp [masRun, hnt, hp, hv, hvp, hst, hur]⟩

/-- C6 counterexample: with a plan of one step whose tool raises, and a
verifier reply `"\x7b\x7d"` that parses to an object with no
`verification_status`, the failing step is duly recorded with `success =
false` and the exception text, yet `run` raises `AttributeError` to the caller
instead of returning a string. -/
theorem c6_counterexample :
    masRun ⟨true, "",
        Except.ok "\x7b\x7d",
        (fun s => if s = "\x7b\x7d" then
          some ⟨none, [⟨some "write_file", [("file_path", PyVal.str "bad")], "write"⟩],
            some "done"⟩
          else none),
        (fun _ => Except.ok "\x7b\x7d"),
        (fun s => if s = "\x7b\x7d" then some ⟨none, none, []⟩ else none),
        (fun _ => Except.error "unused")⟩
      (fun t => if t = "write_file" then some (fun _ => Except.error "invalid path") else none)
      = RunOutcome.crash "AttributeError"
    ∧ (execSteps
        (fun t => if t = "write_file" then some (fun _ => Except.error "invalid path") else none)
        (fun _ => Except.error "unused") 1
        [⟨some "write_file", [("file_path", PyVal.str "bad")], "write"⟩] []).1
      = [⟨some "write_file", none, some "invalid path", false⟩] :=
  ⟨by decide, by decide⟩

theorem c6_witness :
    (∃ s, masRun ⟨true, "",
        Except.ok "\x7bp\x7d",
        (fun s => if s = "\x7bp\x7d" then
          some ⟨none, [⟨some "write_file", [("file_path", PyVal.str "bad")], "write"⟩],
            some "done"⟩
          else none),
        (fun _ => Except.ok "\x7bv\x7d"),
        (fun s => if s = "\x7bv\x7d" then some ⟨some "success", some "All good.", []⟩ else none),
        (fun _ => Except.error "unused")⟩
      (fun t => if t = "write_file" then some (fun _ => Except.error "invalid path") else none)
      = RunOutcome.ok (some s))
    ∧ executionAgentProcess
        (fun t => if t = "write_file" then some (fun _ => Except.error "invalid path") else none)
        (some "write_file") [("file_path", PyVal.str "bad")]
      = AgentResult.errorMsg ⟨some "write_file", none, some "invalid path", false⟩ := by
  constructor
  · exact c6_error_capture.2.2 _ _ (fun results reply c h1 h2 => by
      cases h1
      rw [show verParse (fun s => if s = "\x7bv\x7d" then
          some (⟨some "success", some "All good.", []⟩ : VerifierContent) else none) "\x7bv\x7d"
        = some ⟨some "success", some "All good.", []⟩ from by decide] at h2
      cases h2
      exact ⟨⟨"success", rfl⟩, ⟨"All good.", rfl⟩⟩)
  · exact c6_error_capture.1 _ "write_file" (fun _ => Except.error "invalid path")
      [("file_path", PyVal.str "bad")] "invalid path" rfl rfl

/-- C10: when a regular (executor-dispatched) plan step fails, the loop
records the empty string under `step{i}_result` (together with a
`step{i}_error` entry) and no `step{i}_tool` entry, so a later parameter
referencing `$step{i}_result` is substituted with the empty string rather than
left verbatim; the final conjunct shows this end to end on a two-step plan
whose first tool raises. -/
theorem c10_failed_step_empty_result :
    (∀ (reg : ToolReg) (create : CreateOracle) (i : Nat) (step : PlanStep)
        (outs : List (String × String)) (t : String),
      step.tool = some t → t ≠ "CREATE_NEW_TOOL" →
      (reg t = none ∨ ∃ f e, reg t = some f ∧
        f (substituteVariables step.parameters outs) = Except.error e) →
      ∃ c, execStep reg create i step outs
          = (c, outs ++ [("step" ++ toString i ++ "_result", ""),
                        ("step" ++ toString i ++ "_error", c.err.getD "")])
        ∧ c.success = false)
    ∧ (∀ (outs : List (String × String)) (i : Nat) (r err : String),
      outs.lookup ("step" ++ toString i ++ "_result") = none →
      (outs ++ [("step" ++ toString i ++ "_result", r),
                ("step" ++ toString i ++ "_error", err)]).lookup
          ("step" ++ toString i ++ "_result") = some r)
    ∧ (∀ (outs : List (String × String)) (i : Nat) (r err : String),
      outs.lookup ("step" ++ toString i ++ "_tool") = none →
      (outs ++ [("step" ++ toString i ++ "_result", r),
                ("step" ++ toString i ++ "_error", err)]).lookup
          ("step" ++ toString i ++ "_tool") = none)
    ∧ (∀ (outs : List (String × String)) (key : String),
      outs.lookup key = some "" → key.data ≠ [] → (∀ c ∈ key.data, wordChar c = true) →
      substStr outs ("$" ++ key) = "")
    ∧ (execSteps (fun t => if t = "boom" then some (fun _ => Except.error "bad")
          else if t = "echo" then some (fun ps =>
            Except.ok (match ps.lookup "text" with
              | some (PyVal.str s) => s
              | _ => "?"))
          else none)
        (fun _ => Except.error "no") 1
        [⟨some "boom", [], "b"⟩,
         ⟨some "echo", [("text", PyVal.str "got:$step1_result.")], "e"⟩] []).1
      = [⟨some "boom", none, some "bad", false⟩,
         ⟨some "echo", some "got:.", none, true⟩] := by
  refine ⟨?_, ?_, ?_, ?_, by decide⟩
  · intro reg create i step outs t ht hnc hfail
    have hne : (step.tool == some "CREATE_NEW_TOOL") = false := by
      rw [ht]; simp [hnc]
    rcases hfail with hreg | ⟨f, e, hreg, hf⟩
    · refine ⟨⟨some t, none, some ("Tool '" ++ t ++ "' not found"), false⟩, ?_, rfl⟩
      simp [execStep, hne, ht, executionAgentProcess, hreg]
      intro hT
      exact absurd hT hnc
    · refine ⟨⟨some t, none, some e, false⟩, ?_, rfl⟩
      simp [execStep, hne, ht, executionAgentProcess, hreg, hf]
      intro hT
      exact absurd hT hnc
  · intro outs i r err h
    rw [lookup_append_of_none _ _ _ h]
    simp
  · intro outs i r err h
    have hlen1 : ("step" ++ toString i ++ "_tool") ≠ ("step" ++ toString i ++ "_result") := by
      intro hEq
      have hlen := congrArg String.length hEq
      rw [String.length_append, String.length_append, String.length_append,
        String.length_append] at hlen
      have e1 : "_tool".length = 5 := rfl
      have e2 : "_result".length = 7 := rfl
      omega
    have hlen2 : ("step" ++ toString i ++ "_tool") ≠ ("step" ++ toString i ++ "_error") := by
      intro hEq
      have hlen := congrArg String.length hEq
      rw [String.length_append, String.length_append, String.length_append,
        String.length_append] at hlen
      have e1 : "_tool".length = 5 := rfl
      have e2 : "_error".length = 6 := rfl
      omega
    have hb1 : (("step" ++ toString i ++ "_tool") == ("step" ++ toString i ++ "_result"))
        = false := beq_eq_false_iff_ne.mpr hlen1
    have hb2 : (("step" ++ toString i ++ "_tool") == ("step" ++ toString i ++ "_error"))
        = false := beq_eq_false_iff_ne.mpr hlen2
    rw [lookup_append_of_none _ _ _ h]
    simp [List.lookup_cons, hb1, hb2]
  · intro outs key hlook hk hkw
    have h := substStr_hit outs "" key "" "" hk hkw (Or.inl rfl)
      (by intro c hc; simp at hc) (by intro c hc; simp at hc)
      (by intro c hc; simp at hc) hlook
    simpa using h

theorem c10_witness :
    (∃ c, execStep (fun _ => none) (fun _ => Except.error "no") 1
        ⟨some "boom", [], "b"⟩ []
        = (c, [] ++ [("step1_result", ""), ("step1_error", c.err.getD "")])
      ∧ c.success = false)
    ∧ substStr [("step1_result", "")] ("$" ++ "step1_result") = ""
    ∧ ([] ++ [("step1_result", ""), ("step1_error", "x")] :
        List (String × String)).lookup "step1_tool" = none := by
  refine ⟨?_, ?_, ?_⟩
  · exact c10_failed_step_empty_result.1 (fun _ => none) _ 1 ⟨some "boom", [], "b"⟩ []
      "boom" rfl (by decide) (Or.inl rfl)
  · exact c10_failed_step_empty_result.2.2.2.1 [("step1_result", "")] "step1_result"
      (by decide) (by decide) (by decide)
  · exact c10_failed_step_empty_result.2.2.1 [] 1 "" "x" (by decide)
